import Mathlib

/-!
Shallow embedding of the substance-legacy document core, translated from
src/src/document/document.js.  The file models the live data store, the
transaction stage, the undo/redo history and the annotation query methods
of `Document`.  Parts of the repository that `document.js` depends on but
that are not shipped under src/ (TransactionDocument, DocumentChange.invert,
the operation primitives) are modelled from the specification; each such
definition carries a doc comment saying so.
-/

namespace Substance

/-- JS property values as they occur in node records and selection state:
primitives plus ordered lists (JS arrays), as used by reference-list
properties such as a container's `nodes`. -/
inductive Val where
  | str (s : String)
  | num (n : Int)
  | bool (b : Bool)
  | null
  | list (items : List Val)

/-- Structural equality test on values (the nested list recursion keeps it
kernel-reducible, which the derived handler cannot provide here). -/
def Val.beq : Val → Val → Bool
  | .str a, .str b => a == b
  | .num a, .num b => a == b
  | .bool a, .bool b => a == b
  | .null, .null => true
  | .list as, .list bs => go as bs
  | _, _ => false
where
  go : List Val → List Val → Bool
  | [], [] => true
  | x :: xs, y :: ys => x.beq y && go xs ys
  | _, _ => false

theorem Val.beq_iff : (a b : Val) → (Val.beq a b = true ↔ a = b)
  | .list as, .list bs => by
      simp only [Val.beq]
      rw [goIff as bs]
      simp
  | .str x, b => by cases b <;> simp [Val.beq]
  | .num x, b => by cases b <;> simp [Val.beq]
  | .bool x, b => by cases b <;> simp [Val.beq]
  | .null, b => by cases b <;> simp [Val.beq]
  | .list as, .str y => by simp [Val.beq]
  | .list as, .num y => by simp [Val.beq]
  | .list as, .bool y => by simp [Val.beq]
  | .list as, .null => by simp [Val.beq]
where
  goIff : (as bs : List Val) → (Val.beq.go as bs = true ↔ as = bs)
  | [], [] => by simp [Val.beq.go]
  | [], _ :: _ => by simp [Val.beq.go]
  | _ :: _, [] => by simp [Val.beq.go]
  | x :: xs, y :: ys => by
      simp [Val.beq.go, Bool.and_eq_true, Val.beq_iff x y, goIff xs ys]

instance : DecidableEq Val := fun a b => decidable_of_iff _ (Val.beq_iff a b)

/-- JS truthiness of a value: empty string, zero, false and null are falsy;
arrays (even empty ones) are truthy. -/
def Val.truthy : Val → Bool
  | .str s => !s.isEmpty
  | .num n => decide (n ≠ 0)
  | .bool b => b
  | .null => false
  | .list _ => true

/-- A node of the store: `id`, `type` and a property record kept in JS
object key order. -/
structure Node where
  id : String
  type : String
  props : List (String × Val)
deriving DecidableEq

/-- Lookup of a property in a JS-object-like record (first occurrence wins). -/
def assocLookup : List (String × Val) → String → Option Val
  | [], _ => none
  | (k', v') :: rest, k => if k' = k then some v' else assocLookup rest k

/-- `obj[k] = v`: replace the first binding of `k`, or append a new one. -/
def setAssoc : List (String × Val) → String → Val → List (String × Val)
  | [], k, v => [(k, v)]
  | (k', v') :: rest, k, v =>
      if k' = k then (k', v) :: rest else (k', v') :: setAssoc rest k v

/-- Apply a function to the value bound at `k` (no-op when `k` is absent). -/
def updateAssoc : List (String × Val) → String → (Val → Val) → List (String × Val)
  | [], _, _ => []
  | (k', v') :: rest, k, f =>
      if k' = k then (k', f v') :: rest else (k', v') :: updateAssoc rest k f

/-- Splice on lists: remove `delLen` elements at `pos` and put `ins` in
their place (used for both string characters and value lists). -/
def listSplice {α : Type _} (l : List α) (pos delLen : Nat) (ins : List α) : List α :=
  l.take pos ++ ins ++ l.drop (pos + delLen)

/-- Modelled from the spec: the typed diffs of the `update` operation
(§4.C and the §6 wire form: string splice, list splice, number delta); the
source file for operations is not under src/.  A splice captures the
deleted text or elements so that it is invertible without consulting the
store. -/
inductive Diff where
  | stringSplice (pos : Nat) (deleted inserted : String)
  | listSplice (pos : Nat) (deleted inserted : List Val)
  | numberDelta (d : Int)
deriving DecidableEq

/-- Modelled from the spec: the inverse diff (§4.C "inverse diff"). -/
def Diff.invert : Diff → Diff
  | .stringSplice pos deleted inserted => .stringSplice pos inserted deleted
  | .listSplice pos deleted inserted => .listSplice pos inserted deleted
  | .numberDelta d => .numberDelta (-d)

/-- Modelled from the spec: applying a diff to a property value.  A diff on
a value of the wrong shape leaves it unchanged (the valid-application
predicate below rules these cases out). -/
def applyDiff : Diff → Val → Val
  | .stringSplice pos deleted inserted, .str s =>
      .str (String.mk (listSplice s.data pos deleted.data.length inserted.data))
  | .stringSplice _ _ _, v => v
  | .listSplice pos deleted inserted, .list items =>
      .list (listSplice items pos deleted.length inserted)
  | .listSplice _ _ _, v => v
  | .numberDelta d, .num n => .num (n + d)
  | .numberDelta _, v => v

/-- A diff applies validly to the current property value: the spliced range
is in bounds and the captured deleted text or elements match the store. -/
def diffValidB : Option Val → Diff → Bool
  | some (.str s), .stringSplice pos deleted _ =>
      decide (pos + deleted.data.length ≤ s.data.length ∧
              (s.data.drop pos).take deleted.data.length = deleted.data)
  | some (.list items), .listSplice pos deleted _ =>
      decide (pos + deleted.length ≤ items.length ∧
              (items.drop pos).take deleted.length = deleted)
  | some (.num _), .numberDelta _ => true
  | _, _ => false

/-- Modelled from the spec: the four invertible operation primitives
(§4.C / §6 wire form).  `delete` carries the captured node record, `set`
carries the captured old value, `update` a typed diff. -/
inductive Op where
  | create (node : Node)
  | delete (node : Node)
  | set (path : String × String) (val original : Val)
  | update (path : String × String) (diff : Diff)
deriving DecidableEq

/-- The live (or stage) store: nodes keyed by id. -/
abbrev Store := String → Option Node

def emptyStore : Store := fun _ => none

/-- A selection-state record (JS object such as a beforeState). -/
abbrev StateMap := List (String × Val)

/-- The object returned by a user transformation, read by key lookup. -/
abbrev ResultMap := String → Option Val

/-- Rewrite the property record of the node stored under `nid`. -/
def mapNodeProps (s : Store) (nid : String)
    (f : List (String × Val) → List (String × Val)) : Store :=
  fun k => if k = nid then (s k).map (fun nd => { nd with props := f nd.props }) else s k

/-- Modelled from the spec: applying one operation to a store (the data
layer `this.data.apply(op)` is not under src/). -/
def applyOp (s : Store) : Op → Store
  | .create n => fun k => if k = n.id then some n else s k
  | .delete n => fun k => if k = n.id then none else s k
  | .set p v _ => mapNodeProps s p.1 (fun props => setAssoc props p.2 v)
  | .update p diff => mapNodeProps s p.1 (fun props => updateAssoc props p.2 (applyDiff diff))

/-- Modelled from the spec: each op carries enough captured state to produce
its inverse without consulting the store (§4.C). -/
def Op.invert : Op → Op
  | .create n => .delete n
  | .delete n => .create n
  | .set p v original => .set p original v
  | .update p diff => .update p diff.invert

/-- Read the value at a `[nodeId, property]` path. -/
def getProp (s : Store) (p : String × String) : Option Val :=
  match s p.1 with
  | some n => assocLookup n.props p.2
  | none => none

/-- The captured state inside an op matches the store it is applied to:
this is what holds by construction when the op was recorded against that
store, and it is what makes the inverse exact. -/
def validOpB (s : Store) : Op → Bool
  | .create n => decide (s n.id = none)
  | .delete n => decide (s n.id = some n)
  | .set p _ original => decide (getProp s p = some original)
  | .update p diff => diffValidB (getProp s p) diff

def applyOps (s : Store) (ops : List Op) : Store := ops.foldl applyOp s

def validOpsB (s : Store) : List Op → Bool
  | [] => true
  | op :: rest => validOpB s op && validOpsB (applyOp s op) rest

/-- Modelled from the spec: DocumentChange.invert walks the op list from the
end, inverting each op (§4.H); the DocumentChange source is not under src/. -/
def invertOps (ops : List Op) : List Op := ops.reverse.map Op.invert

/-- Modelled from the spec: a committed change packages the op list together
with the before/after selection state (§4.H); timestamp and the `info` bag
are event payload only and carry no document state. -/
structure DocumentChange where
  ops : List Op
  beforeState : StateMap
  afterState : StateMap
deriving DecidableEq

/-- Modelled from the spec: inverting a change inverts each op in reverse
order and swaps the before/after state (§4.H). -/
def DocumentChange.invert (c : DocumentChange) : DocumentChange :=
  ⟨invertOps c.ops, c.afterState, c.beforeState⟩

/-- The errors `document.js` can throw, plus the TypeError JS raises when a
property of `undefined` is read. -/
inductive JsError where
  | nestedTransaction
  | notInTransaction
  | cannotReplay
  | typeError
  | useTransaction
deriving DecidableEq

/-- The observable state of a `Document` (src/src/document/document.js,
constructor): the live store `data`, the shadow stage (its cloned store,
its buffered op list and its `before` state), the transaction flag, the
FORCE_TRANSACTIONS switch and the two history stacks.  Event emission and
the index objects are modelled separately, as they carry no document
state relevant to the claims. -/
structure Document where
  data : Store
  stageData : Store
  stageOps : List Op
  stageBefore : StateMap
  isTransacting : Bool
  FORCE_TRANSACTIONS : Bool
  done : List DocumentChange
  undone : List DocumentChange

/-- A fresh document: both stores empty, no history, not transacting. -/
def freshDocument : Document :=
  { data := emptyStore, stageData := emptyStore, stageOps := [], stageBefore := [],
    isTransacting := false, FORCE_TRANSACTIONS := false, done := [], undone := [] }

/-- `Document.startTransaction` (document.js:155-164): throwing with state
preserved is modelled as returning the unchanged document with an error. -/
def Document.startTransaction (d : Document) (beforeState : StateMap) :
    Document × Option JsError :=
  if d.isTransacting then (d, some .nestedTransaction)
  else ({ d with isTransacting := true, stageBefore := beforeState }, none)

/-- `Document._saveTransaction` (document.js:309-326): checks the flag,
clears it, wraps the buffered ops in a DocumentChange, applies it to the
live store with mode `skipStage` (the stage already holds the result),
pushes it onto `done` and wipes `undone`. -/
def Document.saveTransactionImpl (d : Document) (beforeState afterState : StateMap) :
    Document × Option JsError :=
  if d.isTransacting then
    ({ d with isTransacting := false,
              data := applyOps d.data d.stageOps,
              done := ⟨d.stageOps, beforeState, afterState⟩ :: d.done,
              undone := [] }, none)
  else (d, some .notInTransaction)

/-- Modelled from the spec: `TransactionDocument.save(afterState, info)`
(not under src/) delegates to `_saveTransaction` with the `before` state
recorded when the transaction started. -/
def Document.stageSave (d : Document) (afterState : StateMap) :
    Document × Option JsError :=
  d.saveTransactionImpl d.stageBefore afterState

/-- Modelled from the spec: `TransactionDocument.finish` (not under src/).
If the transaction is still open it is cancelled — the stage is reverted by
applying the inverse of each buffered op in reverse order (§4.G) — and in
every case the op buffer is cleared for the next transaction. -/
def Document.finishStage (d : Document) : Document :=
  if d.isTransacting then
    { d with isTransacting := false,
             stageData := applyOps d.stageData (invertOps d.stageOps),
             stageOps := [] }
  else { d with stageOps := [] }

/-- The merge of the transformation result into the afterState
(document.js:134-145).  JS reads `result[key]` for each key of
`beforeState`: when the transformation returned `undefined` and
`beforeState` is non-empty, that read throws a TypeError; a key present in
the result with a falsy value fails the `if (result[key])` test and falls
back to the beforeState value. -/
def mergeAfterState (beforeState : StateMap) (result : Option ResultMap) :
    Except JsError StateMap :=
  match beforeState, result with
  | [], _ => .ok []
  | _ :: _, none => .error .typeError
  | bs, some r =>
      .ok (bs.map (fun kv => (kv.1,
        match r kv.1 with
        | some rv => if rv.truthy then rv else kv.2
        | none => kv.2)))

/-- `Document.transaction` (document.js:110-153).  The transformation is
modelled as a function from the stage (which lives inside the document) to
the mutated document and the returned after-state object (`none` models a
transformation returning `undefined`).  The JS argument shuffling for the
1- and 2-argument call forms only normalises the three parameters and is not
modelled; `finally` always runs `tx.finish()`. -/
def Document.transaction (d : Document) (beforeState : StateMap)
    (tf : Document → Document × Option ResultMap) : Document × Option JsError :=
  let s := d.startTransaction beforeState
  match s.2 with
  | some e => (s.1, some e)
  | none =>
    let p := tf s.1
    match mergeAfterState beforeState p.2 with
    | .error e => (p.1.finishStage, some e)
    | .ok afterState =>
      if p.1.isTransacting then
        let q := p.1.stageSave afterState
        (q.1.finishStage, q.2)
      else (p.1.finishStage, none)

/-- `Document._apply` without the `skipStage` mode (document.js:335-347):
the change is applied to the stage and to the live store, keeping the
staging clone up to date. -/
def Document.applyChange (d : Document) (c : DocumentChange) : Document :=
  { d with stageData := applyOps d.stageData c.ops,
           data := applyOps d.data c.ops }

/-- Outcome of an undo/redo call: a change was replayed, the history was
exhausted (console.error, no state change), or `_apply` threw because a
transaction was active. -/
inductive HistoryResult where
  | replayed
  | exhausted
  | thrown (e : JsError)
deriving DecidableEq

/-- `Document.undo` (document.js:223-233): pop `done`, invert, apply to
both stores, push the inverted change onto `undone`.  With `done` empty
nothing is changed and the exhaustion is only logged. -/
def Document.undo (d : Document) : Document × HistoryResult :=
  match d.done with
  | [] => (d, .exhausted)
  | c :: rest =>
    let inv := c.invert
    if d.isTransacting then ({ d with done := rest }, .thrown .cannotReplay)
    else ({ d.applyChange inv with done := rest, undone := inv :: d.undone }, .replayed)

/-- `Document.redo` (document.js:235-245): pop `undone`, invert, apply to
both stores, push the inverted change onto `done`. -/
def Document.redo (d : Document) : Document × HistoryResult :=
  match d.undone with
  | [] => (d, .exhausted)
  | c :: rest =>
    let inv := c.invert
    if d.isTransacting then ({ d with undone := rest }, .thrown .cannotReplay)
    else ({ d.applyChange inv with undone := rest, done := inv :: d.done }, .replayed)

/-- Modelled from the spec: `Document.create/delete/set/update` reach the
data layer through `this._create` etc. of AbstractDocument (not under
src/), which apply the corresponding operation primitive to the live
store; the stage mirror applies the same primitive to the shadow store.
Ops are buffered only while a transaction is active (the buffered list of
a commit holds the ops recorded by that transaction, §4.G). -/
def Document.applyMutation (d : Document) (op : Op) : Document × Option JsError :=
  if d.FORCE_TRANSACTIONS then (d, some .useTransaction)
  else if d.isTransacting then
    ({ d with stageData := applyOp d.stageData op,
              stageOps := d.stageOps ++ [op] }, none)
  else
    ({ d with stageData := applyOp d.stageData op,
              data := applyOp d.data op }, none)

/-- `Document.create` (document.js:166-179); the JS return value
`this.data.get(nodeData.id)` is a read and carries no state. -/
def Document.create (d : Document) (nodeData : Node) : Document × Option JsError :=
  d.applyMutation (.create nodeData)

/-- `Document.delete` (document.js:181-193); the captured record is the
node currently stored under the id. -/
def Document.deleteNode (d : Document) (node : Node) : Document × Option JsError :=
  d.applyMutation (.delete node)

/-- `Document.set` (document.js:195-207). -/
def Document.set (d : Document) (path : String × String) (value original : Val) :
    Document × Option JsError :=
  d.applyMutation (.set path value original)

/-- `Document.update` (document.js:209-221); note the source applies the
live mutation before the stage mirror here, which does not change the
resulting stores. -/
def Document.update (d : Document) (path : String × String) (diff : Diff) :
    Document × Option JsError :=
  d.applyMutation (.update path diff)

/-- The ops seeding a snapshot: one create per seed node (§6 snapshot form
`nodes: [Node]`). -/
def seedOps (seed : List Node) : List Op := seed.map Op.create

/-- Modelled from the spec: `TransactionDocument.loadSeed` (not under src/)
seeds the stage from the snapshot's node list, buffering the create ops;
like any JS function without a return statement it returns `undefined`
(`none`). -/
def Document.txLoadSeed (seed : List Node) (d : Document) :
    Document × Option ResultMap :=
  ({ d with stageData := applyOps d.stageData (seedOps seed),
            stageOps := d.stageOps ++ seedOps seed }, none)

/-- `Document.loadSeed` (document.js:75-79): wraps the stage seeding in a
transaction. -/
def Document.loadSeed (d : Document) (seed : List Node) : Document × Option JsError :=
  d.transaction [] (Document.txLoadSeed seed)

/-- `Document.fromSnapshot` (document.js:69-73): a fresh instance seeded
from the snapshot data. -/
def Document.fromSnapshot (seed : List Node) : Document × Option JsError :=
  freshDocument.loadSeed seed

/-- `Document.documentDidLoad` (document.js:81-85): the stage is reset and
the undo stack is cleared.  The stage reset is modelled from the spec
(`TransactionDocument.reset` is not under src/): the stage is a clone of
the live document, so resetting re-clones the live store and empties the
op buffer. -/
def Document.documentDidLoad (d : Document) : Document :=
  { d with stageData := d.data, stageOps := [], done := [] }

/-- Selections as far as `document.js` discriminates them: a property
selection with path and offsets, a container selection, or the null
selection. -/
inductive Selection where
  | property (path : String × String) (startOffset endOffset : Nat)
  | container (containerId : String) (startPath : String × String) (startOffset : Nat)
      (endPath : String × String) (endOffset : Nat)
  | nullSel
deriving DecidableEq

def Selection.isPropertySelection : Selection → Bool
  | .property _ _ _ => true
  | _ => false

/-- The `options` object of the annotation queries: an optional `type`
filter (JS checks it with `if (options.type)`, so an empty string behaves
like an absent one). -/
structure QueryOptions where
  type : Option String
deriving DecidableEq

/-- `Document.getAnnotationsForSelection` (document.js:253-270).  The
annotation index is passed explicitly (it is document state the claims do
not otherwise touch): `annotationIndex.get(path, startOffset, endOffset)`
is a query function, and `AnnotationIndex.filterByType` keeps the nodes of
the given type. -/
def getAnnotationsForSelection (annotationIndex : (String × String) → Nat → Nat → List Node)
    (sel : Selection) (options : Option QueryOptions) : List Node :=
  let opts := options.getD ⟨none⟩
  match sel with
  | .property path startOffset endOffset =>
    let annos := annotationIndex path startOffset endOffset
    match opts.type with
    | some t => if t.isEmpty then annos else annos.filter (fun n => n.type = t)
    | none => annos
  | _ => []

/-- `Document.getContainerAnnotationsForSelection` (document.js:277-295).
`container` is an optional argument (JS falsiness of a missing object);
reading `options.type` when `options` was omitted throws a TypeError.  The
`overlaps` predicate and per-node selections live in the missing selection
sources and are passed as parameters. -/
def getContainerAnnotationsForSelection
    (overlaps : Selection → Selection → Bool) (getSelection : Node → Selection)
    (typeIndex : String → List Node) (containerAnnosById : List Node)
    (sel : Selection) (container : Option String) (options : Option QueryOptions) :
    Except JsError (List Node) :=
  match container with
  | none => .ok []
  | some _ =>
    match options with
    | none => .error .typeError
    | some opts =>
      let annos :=
        match opts.type with
        | some t => if t.isEmpty then containerAnnosById else typeIndex t
        | none => containerAnnosById
      .ok (annos.filter (fun anno => overlaps sel (getSelection anno)))

/-! Algebraic facts about the record helpers. -/

theorem setAssoc_setAssoc (props : List (String × Val)) (k : String) (v w : Val) :
    setAssoc (setAssoc props k v) k w = setAssoc props k w := by
  induction props with
  | nil => simp [setAssoc]
  | cons hd tl ih =>
    obtain ⟨k', v'⟩ := hd
    by_cases h : k' = k
    · simp [setAssoc, h]
    · simp [setAssoc, h, ih]

theorem setAssoc_lookup_self (props : List (String × Val)) (k : String) (v : Val)
    (h : assocLookup props k = some v) : setAssoc props k v = props := by
  induction props with
  | nil => simp [assocLookup] at h
  | cons hd tl ih =>
    obtain ⟨k', v'⟩ := hd
    by_cases hk : k' = k
    · simp only [assocLookup, if_pos hk, Option.some.injEq] at h
      simp [setAssoc, hk, h]
    · simp only [assocLookup, if_neg hk] at h
      simp [setAssoc, hk, ih h]

theorem assocLookup_setAssoc (props : List (String × Val)) (k : String) (v : Val) :
    assocLookup (setAssoc props k v) k = some v := by
  induction props with
  | nil => simp [setAssoc, assocLookup]
  | cons hd tl ih =>
    obtain ⟨k', v'⟩ := hd
    by_cases hk : k' = k
    · simp [setAssoc, assocLookup, hk]
    · simp [setAssoc, assocLookup, hk, ih]

theorem updateAssoc_updateAssoc (props : List (String × Val)) (k : String)
    (f g : Val → Val) :
    updateAssoc (updateAssoc props k f) k g = updateAssoc props k (fun v => g (f v)) := by
  induction props with
  | nil => simp [updateAssoc]
  | cons hd tl ih =>
    obtain ⟨k', v'⟩ := hd
    by_cases h : k' = k
    · simp [updateAssoc, h]
    · simp [updateAssoc, h, ih]

theorem updateAssoc_lookup_self (props : List (String × Val)) (k : String)
    (f : Val → Val) (v : Val) (h : assocLookup props k = some v) (hf : f v = v) :
    updateAssoc props k f = props := by
  induction props with
  | nil => simp [assocLookup] at h
  | cons hd tl ih =>
    obtain ⟨k', v'⟩ := hd
    by_cases hk : k' = k
    · simp only [assocLookup, if_pos hk, Option.some.injEq] at h
      subst h
      simp [updateAssoc, hk, hf]
    · simp only [assocLookup, if_neg hk] at h
      simp [updateAssoc, hk, ih h]

theorem assocLookup_updateAssoc (props : List (String × Val)) (k : String)
    (f : Val → Val) :
    assocLookup (updateAssoc props k f) k = (assocLookup props k).map f := by
  induction props with
  | nil => simp [updateAssoc, assocLookup]
  | cons hd tl ih =>
    obtain ⟨k', v'⟩ := hd
    by_cases hk : k' = k
    · simp [updateAssoc, assocLookup, hk]
    · simp [updateAssoc, assocLookup, hk, ih]

/-! Splice facts. -/

theorem listSplice_take {α : Type _} (l : List α) (pos dl : Nat) (ins : List α)
    (h : pos ≤ l.length) : (listSplice l pos dl ins).take pos = l.take pos := by
  unfold listSplice
  rw [List.append_assoc]
  exact List.take_left' (List.length_take_of_le h)

theorem listSplice_drop {α : Type _} (l : List α) (pos dl : Nat) (ins : List α)
    (h : pos ≤ l.length) :
    (listSplice l pos dl ins).drop (pos + ins.length) = l.drop (pos + dl) := by
  unfold listSplice
  apply List.drop_left'
  simp [List.length_append, List.length_take_of_le h]

theorem listSplice_drop_pos {α : Type _} (l : List α) (pos dl : Nat) (ins : List α)
    (h : pos ≤ l.length) :
    (listSplice l pos dl ins).drop pos = ins ++ l.drop (pos + dl) := by
  unfold listSplice
  rw [List.append_assoc]
  exact List.drop_left' (List.length_take_of_le h)

theorem listSplice_roundtrip {α : Type _} (l del ins : List α) (pos : Nat)
    (h1 : pos + del.length ≤ l.length)
    (h2 : (l.drop pos).take del.length = del) :
    listSplice (listSplice l pos del.length ins) pos ins.length del = l := by
  have hp : pos ≤ l.length := le_trans (Nat.le_add_right _ _) h1
  conv_lhs => rw [listSplice]
  rw [listSplice_take _ _ _ _ hp, listSplice_drop _ _ _ _ hp]
  have h3 : (l.drop pos).drop del.length = l.drop (pos + del.length) := by
    rw [List.drop_drop]
  calc l.take pos ++ del ++ l.drop (pos + del.length)
      = l.take pos ++ ((l.drop pos).take del.length ++ (l.drop pos).drop del.length) := by
        rw [h2, h3, List.append_assoc]
    _ = l.take pos ++ l.drop pos := by rw [List.take_append_drop]
    _ = l := List.take_append_drop _ _

theorem listSplice_inverse_valid {α : Type _} (l del ins : List α) (pos : Nat)
    (h1 : pos + del.length ≤ l.length) :
    pos + ins.length ≤ (listSplice l pos del.length ins).length ∧
    ((listSplice l pos del.length ins).drop pos).take ins.length = ins := by
  have hp : pos ≤ l.length := le_trans (Nat.le_add_right _ _) h1
  constructor
  · simp only [listSplice, List.length_append, List.length_take_of_le hp, List.length_drop]
    omega
  · rw [listSplice_drop_pos _ _ _ _ hp]
    exact List.take_left' rfl

/-! Diff inversion. -/

theorem diffValidB_none (d : Diff) : diffValidB none d = false := by
  cases d <;> rfl

theorem applyDiff_roundtrip (d : Diff) (v : Val)
    (h : diffValidB (some v) d = true) :
    applyDiff d.invert (applyDiff d v) = v := by
  cases d with
  | stringSplice pos del ins =>
    cases v with
    | str s =>
      simp only [diffValidB, decide_eq_true_eq] at h
      obtain ⟨h1, h2⟩ := h
      simp only [applyDiff, Diff.invert, Val.str.injEq]
      show String.mk (listSplice (listSplice s.data pos del.data.length ins.data)
            pos ins.data.length del.data) = s
      rw [listSplice_roundtrip s.data del.data ins.data pos h1 h2]
    | num n => simp [diffValidB] at h
    | bool b => simp [diffValidB] at h
    | null => simp [diffValidB] at h
    | list items => simp [diffValidB] at h
  | listSplice pos del ins =>
    cases v with
    | str s => simp [diffValidB] at h
    | num n => simp [diffValidB] at h
    | bool b => simp [diffValidB] at h
    | null => simp [diffValidB] at h
    | list items =>
      simp only [diffValidB, decide_eq_true_eq] at h
      obtain ⟨h1, h2⟩ := h
      simp only [applyDiff, Diff.invert, Val.list.injEq]
      exact listSplice_roundtrip items del ins pos h1 h2
  | numberDelta dd =>
    cases v with
    | str s => simp [diffValidB] at h
    | num n =>
      simp only [applyDiff, Diff.invert, Val.num.injEq]
      omega
    | bool b => simp [diffValidB] at h
    | null => simp [diffValidB] at h
    | list items => simp [diffValidB] at h

theorem diffValid_invert (d : Diff) (v : Val)
    (h : diffValidB (some v) d = true) :
    diffValidB (some (applyDiff d v)) d.invert = true := by
  cases d with
  | stringSplice pos del ins =>
    cases v with
    | str s =>
      simp only [diffValidB, decide_eq_true_eq] at h
      obtain ⟨h1, _⟩ := h
      simp only [applyDiff, Diff.invert, diffValidB, decide_eq_true_eq]
      exact listSplice_inverse_valid s.data del.data ins.data pos h1
    | num n => simp [diffValidB] at h
    | bool b => simp [diffValidB] at h
    | null => simp [diffValidB] at h
    | list items => simp [diffValidB] at h
  | listSplice pos del ins =>
    cases v with
    | str s => simp [diffValidB] at h
    | num n => simp [diffValidB] at h
    | bool b => simp [diffValidB] at h
    | null => simp [diffValidB] at h
    | list items =>
      simp only [diffValidB, decide_eq_true_eq] at h
      obtain ⟨h1, _⟩ := h
      simp only [applyDiff, Diff.invert, diffValidB, decide_eq_true_eq]
      exact listSplice_inverse_valid items del ins pos h1
  | numberDelta dd =>
    cases v with
    | str s => simp [diffValidB] at h
    | num n => rfl
    | bool b => simp [diffValidB] at h
    | null => simp [diffValidB] at h
    | list items => simp [diffValidB] at h

theorem diff_invert_invert (d : Diff) : d.invert.invert = d := by
  cases d <;> simp [Diff.invert]

/-! Operation inversion. -/

theorem op_invert_invert (op : Op) : op.invert.invert = op := by
  cases op <;> simp [Op.invert, diff_invert_invert]

theorem applyOp_applyOp_invert (s : Store) (op : Op) (h : validOpB s op = true) :
    applyOp (applyOp s op) op.invert = s := by
  funext k
  cases op with
  | create n =>
    simp only [validOpB, decide_eq_true_eq] at h
    simp only [applyOp, Op.invert]
    by_cases hk : k = n.id
    · subst hk; rw [if_pos rfl, h]
    · simp [hk]
  | delete n =>
    simp only [validOpB, decide_eq_true_eq] at h
    simp only [applyOp, Op.invert]
    by_cases hk : k = n.id
    · subst hk; rw [if_pos rfl, h]
    · simp [hk]
  | set p v orig =>
    simp only [validOpB, decide_eq_true_eq] at h
    simp only [applyOp, Op.invert, mapNodeProps]
    by_cases hk : k = p.1
    · simp only [if_pos hk, Option.map_map]
      cases hsk : s k with
      | none => rfl
      | some nd =>
        have hl : assocLookup nd.props p.2 = some orig := by
          unfold getProp at h
          rw [← hk, hsk] at h
          exact h
        simp only [Option.map_some', Function.comp]
        rw [setAssoc_setAssoc, setAssoc_lookup_self _ _ _ hl]
    · simp [hk]
  | update p diff =>
    simp only [validOpB] at h
    cases hv : getProp s p with
    | none => rw [hv, diffValidB_none] at h; exact absurd h (by simp)
    | some v =>
      rw [hv] at h
      simp only [applyOp, Op.invert, mapNodeProps]
      by_cases hk : k = p.1
      · simp only [if_pos hk, Option.map_map]
        cases hsk : s k with
        | none => rfl
        | some nd =>
          have hl : assocLookup nd.props p.2 = some v := by
            unfold getProp at hv
            rw [← hk, hsk] at hv
            exact hv
          simp only [Option.map_some', Function.comp]
          rw [updateAssoc_updateAssoc,
              updateAssoc_lookup_self _ _ _ v hl (applyDiff_roundtrip diff v h)]
      · simp [hk]

theorem validOpB_invert (s : Store) (op : Op) (h : validOpB s op = true) :
    validOpB (applyOp s op) op.invert = true := by
  cases op with
  | create n =>
    simp only [validOpB, Op.invert, applyOp, decide_eq_true_eq]
    simp
  | delete n =>
    simp only [validOpB, Op.invert, applyOp, decide_eq_true_eq]
    simp
  | set p v orig =>
    simp only [validOpB, decide_eq_true_eq] at h
    have hnd : ∃ nd, s p.1 = some nd ∧ assocLookup nd.props p.2 = some orig := by
      unfold getProp at h
      cases hsk : s p.1 with
      | none => rw [hsk] at h; exact absurd h (by simp)
      | some nd => rw [hsk] at h; exact ⟨nd, rfl, h⟩
    obtain ⟨nd, hs, _⟩ := hnd
    simp only [validOpB, Op.invert, applyOp, mapNodeProps, decide_eq_true_eq, getProp,
      if_pos rfl, hs, Option.map_some']
    exact assocLookup_setAssoc _ _ _
  | update p diff =>
    simp only [validOpB] at h
    cases hv : getProp s p with
    | none => rw [hv, diffValidB_none] at h; exact absurd h (by simp)
    | some v =>
      rw [hv] at h
      have hnd : ∃ nd, s p.1 = some nd ∧ assocLookup nd.props p.2 = some v := by
        unfold getProp at hv
        cases hsk : s p.1 with
        | none => rw [hsk] at hv; exact absurd hv (by simp)
        | some nd => rw [hsk] at hv; exact ⟨nd, rfl, hv⟩
      obtain ⟨nd, hs, hl⟩ := hnd
      simp only [validOpB, Op.invert, applyOp, mapNodeProps, getProp, if_pos rfl, if_true,
        hs, Option.map_some', assocLookup_updateAssoc, hl]
      exact diffValid_invert diff v h

/-! Inversion of op lists and changes. -/

theorem applyOps_append (s : Store) (a b : List Op) :
    applyOps s (a ++ b) = applyOps (applyOps s a) b := by
  simp [applyOps]

theorem invertOps_cons (op : Op) (rest : List Op) :
    invertOps (op :: rest) = invertOps rest ++ [op.invert] := by
  simp [invertOps]

theorem validOpsB_cons (s : Store) (op : Op) (rest : List Op) :
    validOpsB s (op :: rest) = (validOpB s op && validOpsB (applyOp s op) rest) := rfl

theorem applyOps_invertOps (ops : List Op) :
    ∀ s : Store, validOpsB s ops = true →
      applyOps (applyOps s ops) (invertOps ops) = s := by
  induction ops with
  | nil => intro s _; rfl
  | cons op rest ih =>
    intro s h
    rw [validOpsB_cons, Bool.and_eq_true] at h
    obtain ⟨h1, h2⟩ := h
    rw [invertOps_cons]
    show applyOps (applyOps (applyOp s op) rest) (invertOps rest ++ [op.invert]) = s
    rw [applyOps_append, ih _ h2]
    exact applyOp_applyOp_invert s op h1

theorem validOpsB_append (a : List Op) :
    ∀ (s : Store) (b : List Op),
      validOpsB s (a ++ b) = (validOpsB s a && validOpsB (applyOps s a) b) := by
  induction a with
  | nil => intro s b; rfl
  | cons op rest ih =>
    intro s b
    show validOpsB s (op :: (rest ++ b)) = _
    rw [validOpsB_cons, ih, validOpsB_cons, Bool.and_assoc]
    rfl

theorem validOpsB_invertOps (ops : List Op) :
    ∀ s : Store, validOpsB s ops = true →
      validOpsB (applyOps s ops) (invertOps ops) = true := by
  induction ops with
  | nil => intro s _; rfl
  | cons op rest ih =>
    intro s h
    rw [validOpsB_cons, Bool.and_eq_true] at h
    obtain ⟨h1, h2⟩ := h
    rw [invertOps_cons]
    show validOpsB (applyOps (applyOp s op) rest) (invertOps rest ++ [op.invert]) = true
    rw [validOpsB_append, Bool.and_eq_true]
    refine ⟨ih _ h2, ?_⟩
    rw [applyOps_invertOps rest _ h2]
    show (validOpB (applyOp s op) op.invert && true) = true
    rw [Bool.and_true]
    exact validOpB_invert s op h1

theorem invertOps_invertOps (ops : List Op) : invertOps (invertOps ops) = ops := by
  unfold invertOps
  rw [← List.map_reverse, List.reverse_reverse, List.map_map]
  have : ∀ l : List Op, l.map (Op.invert ∘ Op.invert) = l := by
    intro l
    induction l with
    | nil => rfl
    | cons a t ih => simp [Function.comp, op_invert_invert, ih]
  exact this ops

theorem change_invert_invert (c : DocumentChange) : c.invert.invert = c := by
  cases c
  simp [DocumentChange.invert, invertOps_invertOps]

/-- Two documents with equal fields are equal. -/
theorem Document.eq_of_fields {a b : Document}
    (h1 : a.data = b.data) (h2 : a.stageData = b.stageData)
    (h3 : a.stageOps = b.stageOps) (h4 : a.stageBefore = b.stageBefore)
    (h5 : a.isTransacting = b.isTransacting)
    (h6 : a.FORCE_TRANSACTIONS = b.FORCE_TRANSACTIONS)
    (h7 : a.done = b.done) (h8 : a.undone = b.undone) : a = b := by
  cases a; cases b; simp_all

/-! Sample data used by the witnesses and counterexamples. -/

/-- A paragraph node as in the repository's README walkthrough. -/
def p1 : Node := ⟨"p1", "paragraph", [("content", Val.str "Hello World")]⟩

/-- A strong-annotation node. -/
def s1 : Node := ⟨"s1", "strong", [("startOffset", Val.num 10), ("endOffset", Val.num 19)]⟩

/-- A document with an open transaction and an empty op buffer. -/
def docEmptyTx : Document := { freshDocument with isTransacting := true }

/-- A body container holding `p1`, as in the README walkthrough. -/
def body : Node := ⟨"body", "container", [("nodes", Val.list [Val.str "p1"])]⟩

/-- A sample committed change exercising every op kind and every diff kind:
create two nodes, show "p2" on the container (a list splice on `nodes`),
splice text into `p1.content` (a string splice), replace the property with
`set`, then create and delete an annotation node. -/
def c2c : DocumentChange :=
  ⟨[Op.create p1,
    Op.create body,
    Op.update ("body", "nodes") (Diff.listSplice 1 [] [Val.str "p2"]),
    Op.update ("p1", "content") (Diff.stringSplice 6 "" "brave "),
    Op.set ("p1", "content") (Val.str "Hi") (Val.str "Hello brave World"),
    Op.create s1,
    Op.delete s1],
   [("selection", Val.null)], [("selection", Val.str "after")]⟩

/-- The document state right after committing `c2c` on a fresh document. -/
def docAfterCommit : Document :=
  { freshDocument with
      data := applyOps emptyStore c2c.ops,
      stageData := applyOps emptyStore c2c.ops,
      done := [c2c] }

/-- A document whose redo stack holds one change. -/
def docWithUndone : Document := { freshDocument with undone := [c2c] }

/-! The claims. -/

/-- Claim C1 (counterexample): committing a transaction whose buffered op
list is empty produces a DocumentChange with zero ops, but the change IS
pushed onto `done` — starting from an empty `done`, the stack afterwards
holds exactly one zero-op change, falsifying "the change is not pushed onto
the undo stack `done`". -/
theorem empty_commit_counterexample :
    docEmptyTx.done = [] ∧
    (docEmptyTx.saveTransactionImpl [] []).1.done.map DocumentChange.ops = [[]] ∧
    (docEmptyTx.saveTransactionImpl [] []).2 = none := by
  refine ⟨rfl, ?_, ?_⟩ <;> rfl

/-- Claim C1 (amended): for every commit of a transaction whose buffered op
list is empty, the resulting DocumentChange has zero ops and the change IS
pushed onto the undo stack `done` (document.js:320 pushes unconditionally);
the live store is left unchanged by the empty replay. -/
theorem empty_commit_pushes (d : Document) (b a : StateMap)
    (ht : d.isTransacting = true) (hops : d.stageOps = []) :
    (d.saveTransactionImpl b a).2 = none ∧
    (d.saveTransactionImpl b a).1.done = ⟨[], b, a⟩ :: d.done ∧
    (d.saveTransactionImpl b a).1.data = d.data := by
  refine ⟨?_, ?_, ?_⟩ <;> simp [Document.saveTransactionImpl, ht, hops, applyOps]

/-- Claim C1 witness: the amended statement at a concrete transacting
document with an empty buffer. -/
theorem empty_commit_pushes_witness :
    (docEmptyTx.saveTransactionImpl [] []).2 = none ∧
    (docEmptyTx.saveTransactionImpl [] []).1.done =
      ⟨[], [], []⟩ :: docEmptyTx.done ∧
    (docEmptyTx.saveTransactionImpl [] []).1.data = docEmptyTx.data :=
  empty_commit_pushes docEmptyTx [] [] rfl rfl

/-- Claim C3: whenever no transaction is active (and FORCE_TRANSACTIONS is
off) and the shadow store mirrors the live store, each of the four
mutations `create`, `delete`, `set`, `update` applies to both stores and
the stores are again identical afterwards: the mirror invariant is
preserved by every mutation performed outside a transaction. -/
theorem mirror_preserved (d : Document) (n node : Node) (p q : String × String)
    (v orig : Val) (df : Diff)
    (hF : d.FORCE_TRANSACTIONS = false) (ht : d.isTransacting = false)
    (hm : d.stageData = d.data) :
    (d.create n).1.stageData = (d.create n).1.data ∧
    (d.deleteNode node).1.stageData = (d.deleteNode node).1.data ∧
    (d.set p v orig).1.stageData = (d.set p v orig).1.data ∧
    (d.update q df).1.stageData = (d.update q df).1.data := by
  refine ⟨?_, ?_, ?_, ?_⟩ <;>
    simp [Document.create, Document.deleteNode, Document.set, Document.update,
      Document.applyMutation, hF, ht, hm]

/-- Claim C3 witness: the mirror preservation at a fresh document and
concrete mutations. -/
theorem mirror_preserved_witness :
    (freshDocument.create p1).1.stageData = (freshDocument.create p1).1.data ∧
    (freshDocument.deleteNode s1).1.stageData = (freshDocument.deleteNode s1).1.data ∧
    (freshDocument.set ("p1", "content") (Val.str "Hi") (Val.str "Hello World")).1.stageData
      = (freshDocument.set ("p1", "content") (Val.str "Hi") (Val.str "Hello World")).1.data ∧
    (freshDocument.update ("s1", "startOffset") (Diff.numberDelta 2)).1.stageData
      = (freshDocument.update ("s1", "startOffset") (Diff.numberDelta 2)).1.data :=
  mirror_preserved freshDocument p1 s1 ("p1", "content") ("s1", "startOffset")
    (Val.str "Hi") (Val.str "Hello World") (Diff.numberDelta 2) rfl rfl rfl

/-- Claim C6: calling `startTransaction` while a transaction is already
active fails with the NestedTransaction error and the document is returned
unchanged: the transaction flag, the stage store, its buffered ops and its
before-state are exactly those of the input. -/
theorem nested_start_rejected (d : Document) (b : StateMap)
    (h : d.isTransacting = true) :
    d.startTransaction b = (d, some JsError.nestedTransaction) := by
  simp [Document.startTransaction, h]

/-- Claim C6 witness: the rejection at a concrete transacting document. -/
theorem nested_start_rejected_witness :
    docEmptyTx.startTransaction [("selection", Val.null)]
      = (docEmptyTx, some JsError.nestedTransaction) :=
  nested_start_rejected docEmptyTx [("selection", Val.null)] rfl

/-- Claim C7: every commit through `_saveTransaction` wipes the redo stack
`undone`, while the undo/redo replays do not wipe it: `undo` pushes the
inverted change on top of the existing `undone`, and `redo` removes exactly
the popped top, keeping every other element. -/
theorem commit_clears_undone_replays_pop_only
    (d e g : Document) (b a : StateMap)
    (c : DocumentChange) (rest : List DocumentChange)
    (u : DocumentChange) (us : List DocumentChange)
    (hd : d.isTransacting = true)
    (he : e.done = c :: rest) (he' : e.isTransacting = false)
    (hg : g.undone = u :: us) (hg' : g.isTransacting = false) :
    (d.saveTransactionImpl b a).1.undone = [] ∧
    (e.undo).1.undone = c.invert :: e.undone ∧
    (g.redo).1.undone = us := by
  refine ⟨?_, ?_, ?_⟩
  · simp [Document.saveTransactionImpl, hd]
  · unfold Document.undo
    rw [he]
    simp [he', Document.applyChange]
  · unfold Document.redo
    rw [hg]
    simp [hg', Document.applyChange]

/-- Claim C7 witness: the three behaviours at concrete documents. -/
theorem commit_clears_undone_replays_pop_only_witness :
    (docEmptyTx.saveTransactionImpl [] []).1.undone = [] ∧
    (docAfterCommit.undo).1.undone = c2c.invert :: docAfterCommit.undone ∧
    (docWithUndone.redo).1.undone = [] :=
  commit_clears_undone_replays_pop_only docEmptyTx docAfterCommit docWithUndone
    [] [] c2c [] c2c [] rfl rfl rfl rfl rfl

/-- Claim C8: calling `undo` with an empty `done` stack, or `redo` with an
empty `undone` stack, does not throw: the exhaustion is only reported (the
console.error branch, modelled as the `exhausted` outcome) and the document
— store, `done` and `undone` included — is returned unchanged. -/
theorem history_exhaustion_safe (d e : Document)
    (hd : d.done = []) (he : e.undone = []) :
    d.undo = (d, HistoryResult.exhausted) ∧
    e.redo = (e, HistoryResult.exhausted) := by
  constructor
  · unfold Document.undo; rw [hd]
  · unfold Document.redo; rw [he]

/-- Claim C8 witness: exhaustion at a fresh document. -/
theorem history_exhaustion_safe_witness :
    freshDocument.undo = (freshDocument, HistoryResult.exhausted) ∧
    freshDocument.redo = (freshDocument, HistoryResult.exhausted) :=
  history_exhaustion_safe freshDocument freshDocument rfl rfl

/-- Claim C9: for every selection that is not a property selection and
every options value, `getAnnotationsForSelection` returns the empty array;
the annotation index is universally quantified and never queried, so the
result does not consult it. -/
theorem nonproperty_selection_queries_empty
    (annotationIndex : (String × String) → Nat → Nat → List Node)
    (sel : Selection) (options : Option QueryOptions)
    (h : sel.isPropertySelection = false) :
    getAnnotationsForSelection annotationIndex sel options = [] := by
  cases sel with
  | property _ _ _ => simp [Selection.isPropertySelection] at h
  | container _ _ _ _ _ => rfl
  | nullSel => rfl

/-- Claim C9 witness: a container selection with a populated index and a
type filter still yields the empty list. -/
theorem nonproperty_selection_queries_empty_witness :
    getAnnotationsForSelection (fun _ _ _ => [s1])
      (Selection.container "body" ("p1", "content") 0 ("p2", "content") 3)
      (some ⟨some "strong"⟩) = [] :=
  nonproperty_selection_queries_empty (fun _ _ _ => [s1])
    (Selection.container "body" ("p1", "content") 0 ("p2", "content") 3)
    (some ⟨some "strong"⟩) rfl

/-- Claim C10: `getContainerAnnotationsForSelection` with a missing (falsy)
container returns the empty array without error, for every options value;
with a container given but the options argument omitted, the call throws
the TypeError raised by reading `options.type` off `undefined`. -/
theorem container_query_guards
    (overlaps : Selection → Selection → Bool) (getSelection : Node → Selection)
    (typeIndex : String → List Node) (byId : List Node)
    (sel : Selection) (cid : String) (opts : Option QueryOptions) :
    getContainerAnnotationsForSelection overlaps getSelection typeIndex byId
      sel none opts = .ok [] ∧
    getContainerAnnotationsForSelection overlaps getSelection typeIndex byId
      sel (some cid) none = .error JsError.typeError :=
  ⟨rfl, rfl⟩

/-! The commit path of `Document.transaction` and the afterState merge. -/

/-- The value the code's merge loop assigns to a beforeState key `k` bound
to `v`: the transformation result wins only when it holds a truthy value
at `k`. -/
def mergedVal (r : ResultMap) (k : String) (v : Val) : Val :=
  match r k with
  | some rv => if rv.truthy then rv else v
  | none => v

/-- The afterState the merge loop builds from a beforeState and a
transformation result object. -/
def mergedStateMap (bs : StateMap) (r : ResultMap) : StateMap :=
  bs.map (fun kv => (kv.1, mergedVal r kv.1 kv.2))

theorem mergeAfterState_some (bs : StateMap) (r : ResultMap) :
    mergeAfterState bs (some r) = .ok (mergedStateMap bs r) := by
  cases bs <;> rfl

theorem mergedStateMap_keys (bs : StateMap) (r : ResultMap) :
    (mergedStateMap bs r).map Prod.fst = bs.map Prod.fst := by
  simp [mergedStateMap, List.map_map, Function.comp]

theorem assocLookup_mergedStateMap (bs : StateMap) (r : ResultMap) (k : String) :
    assocLookup (mergedStateMap bs r) k = (assocLookup bs k).map (mergedVal r k) := by
  induction bs with
  | nil => rfl
  | cons hd tl ih =>
    obtain ⟨k', v'⟩ := hd
    by_cases hk : k' = k
    · subst hk; simp [mergedStateMap, assocLookup]
    · simpa [mergedStateMap, assocLookup, hk] using ih

/-- The successful commit path of `Document.transaction`: starting from an
idle document, a transformation that leaves the transaction open commits
the stage ops with the merged afterState, and `finish` clears the buffer. -/
theorem transaction_commit_path (d d2 : Document) (B A : StateMap)
    (res : Option ResultMap) (tf : Document → Document × Option ResultMap)
    (ht : d.isTransacting = false)
    (htf : tf { d with isTransacting := true, stageBefore := B } = (d2, res))
    (hmerge : mergeAfterState B res = .ok A)
    (hd2 : d2.isTransacting = true) :
    d.transaction B tf =
      ({ d2 with isTransacting := false,
                 stageOps := [],
                 data := applyOps d2.data d2.stageOps,
                 done := ⟨d2.stageOps, d2.stageBefore, A⟩ :: d2.done,
                 undone := [] }, none) := by
  unfold Document.transaction
  simp only [Document.startTransaction, ht, Bool.false_eq_true, if_false, htf, hmerge,
    Document.stageSave, Document.saveTransactionImpl, Document.finishStage, hd2, if_true]

/-- Claim C4 (amended): for every transaction with beforeState `B` and a
transformation returning mapping `R`, the committed afterState has exactly
the keys of `B`, where each key `k` of `B` maps to `R[k]` when `k` is
present in `R` with a truthy value and to `B[k]` otherwise (a falsy
`R[k]` — false, 0, empty string, null — falls back to `B[k]`); keys of
`R` absent from `B` are dropped. -/
theorem transaction_afterstate_truthy_merge
    (d d2 : Document) (B : StateMap) (R : ResultMap) (k : String)
    (tf : Document → Document × Option ResultMap)
    (ht : d.isTransacting = false)
    (htf : tf { d with isTransacting := true, stageBefore := B } = (d2, some R))
    (hd2 : d2.isTransacting = true) :
    (d.transaction B tf).2 = none ∧
    (d.transaction B tf).1.done
      = ⟨d2.stageOps, d2.stageBefore, mergedStateMap B R⟩ :: d2.done ∧
    (mergedStateMap B R).map Prod.fst = B.map Prod.fst ∧
    assocLookup (mergedStateMap B R) k = (assocLookup B k).map (mergedVal R k) := by
  have hc := transaction_commit_path d d2 B (mergedStateMap B R) (some R) tf ht htf
    (mergeAfterState_some B R) hd2
  rw [hc]
  exact ⟨rfl, rfl, mergedStateMap_keys B R, assocLookup_mergedStateMap B R k⟩

/-- The beforeState of the C4 counterexample: one key bound to `true`. -/
def c4Before : StateMap := [("selection", Val.bool true)]

/-- The transformation result of the C4 counterexample: the key is present
but bound to the falsy value `false`. -/
def c4Result : ResultMap :=
  fun k => if k = "selection" then some (Val.bool false) else none

/-- The transformation of the C4 counterexample: mutate nothing, return the
result object above. -/
def c4Tf : Document → Document × Option ResultMap := fun dd => (dd, some c4Result)

/-- Claim-side merge, following the claim's words: each key `k` of the
beforeState maps to `R[k]` whenever `k` is present in `R`, and to `B[k]`
otherwise; keys of `R` absent from `B` are dropped. -/
def claimAfterState (bs : StateMap) (r : ResultMap) : StateMap :=
  bs.map (fun kv => (kv.1,
    match r kv.1 with
    | some rv => rv
    | none => kv.2))

/-- Claim C4 (counterexample): a transformation returning the key bound to
the falsy value `false` loses against the beforeState — the committed
afterState keeps `true`, while the claim's presence-based merge demands
`false`. -/
theorem transaction_afterstate_counterexample :
    (freshDocument.transaction c4Before c4Tf).1.done.map DocumentChange.afterState
      = [[("selection", Val.bool true)]] ∧
    claimAfterState c4Before c4Result = [("selection", Val.bool false)] ∧
    (freshDocument.transaction c4Before c4Tf).1.done.map DocumentChange.afterState
      ≠ [claimAfterState c4Before c4Result] := by
  refine ⟨by decide, by decide, by decide⟩

/-- The stage document of the C4 witness, right after `startTransaction`. -/
def c4Started : Document :=
  { freshDocument with isTransacting := true, stageBefore := c4Before }

/-- Claim C4 witness: the amended merge at the concrete transaction above,
with the lookup instantiated at the key "selection". -/
theorem transaction_afterstate_truthy_merge_witness :
    (freshDocument.transaction c4Before c4Tf).2 = none ∧
    (freshDocument.transaction c4Before c4Tf).1.done
      = ⟨c4Started.stageOps, c4Started.stageBefore, mergedStateMap c4Before c4Result⟩
          :: c4Started.done ∧
    (mergedStateMap c4Before c4Result).map Prod.fst = c4Before.map Prod.fst ∧
    assocLookup (mergedStateMap c4Before c4Result) "selection"
      = (assocLookup c4Before "selection").map (mergedVal c4Result "selection") :=
  transaction_afterstate_truthy_merge freshDocument c4Started c4Before c4Result
    "selection" c4Tf rfl rfl rfl

/-- Claim C5 (counterexample): `fromSnapshot` loads the seed through
`loadSeed`'s implicit transaction and succeeds, but the committed seeding
change IS recorded on the undo stack — after loading, `done` holds exactly
the change with the seed's create ops, falsifying "that change is not
recorded on the undo stack `done`". -/
theorem loadseed_counterexample :
    (Document.fromSnapshot [p1]).2 = none ∧
    (Document.fromSnapshot [p1]).1.done.map DocumentChange.ops = [[Op.create p1]] ∧
    (Document.fromSnapshot [p1]).1.done ≠ [] := by
  refine ⟨rfl, rfl, by decide⟩

/-- Claim C5 (amended): loading a document snapshot (`loadSeed` /
`fromSnapshot`) runs inside an implicit transaction, and the committed
seeding change IS pushed onto the undo stack `done`; the history becomes
empty only when `documentDidLoad` is invoked afterwards, which resets the
stage and clears `done`. -/
theorem loadseed_pushes_history (d : Document) (seed : List Node)
    (ht : d.isTransacting = false) (hops : d.stageOps = []) :
    (d.loadSeed seed).2 = none ∧
    (d.loadSeed seed).1.done = ⟨seedOps seed, [], []⟩ :: d.done ∧
    ((d.loadSeed seed).1.documentDidLoad).done = [] := by
  have hc := transaction_commit_path d
    ({ { d with isTransacting := true, stageBefore := [] } with
        stageData := applyOps ({ d with isTransacting := true, stageBefore := [] }).stageData (seedOps seed),
        stageOps := ({ d with isTransacting := true, stageBefore := [] }).stageOps ++ seedOps seed })
    [] [] none (Document.txLoadSeed seed) ht rfl rfl rfl
  unfold Document.loadSeed
  rw [hc]
  refine ⟨rfl, ?_, rfl⟩
  simp [hops]

/-- Claim C5 witness: the amended statement at a fresh document and the
one-paragraph seed. -/
theorem loadseed_pushes_history_witness :
    (freshDocument.loadSeed [p1]).2 = none ∧
    (freshDocument.loadSeed [p1]).1.done = ⟨seedOps [p1], [], []⟩ :: freshDocument.done ∧
    ((freshDocument.loadSeed [p1]).1.documentDidLoad).done = [] :=
  loadseed_pushes_history freshDocument [p1] rfl rfl

/-! Undo followed by redo. -/

theorem undo_cons (d : Document) (c : DocumentChange) (rest : List DocumentChange)
    (h : d.done = c :: rest) (ht : d.isTransacting = false) :
    d.undo = ({ d.applyChange c.invert with
                done := rest, undone := c.invert :: d.undone }, .replayed) := by
  unfold Document.undo
  rw [h]
  simp [ht]

theorem redo_cons (d : Document) (c : DocumentChange) (rest : List DocumentChange)
    (h : d.undone = c :: rest) (ht : d.isTransacting = false) :
    d.redo = ({ d.applyChange c.invert with
                undone := rest, done := c.invert :: d.done }, .replayed) := by
  unfold Document.redo
  rw [h]
  simp [ht]

/-- Claim C2: for every document state reached by a committed transaction —
`done` topped by a change whose ops were validly applied to reach the
current store, with the stage mirroring the live store — calling `undo`
and then `redo` restores the document exactly: the live store, the shadow
store, both history stacks (so the restored change carries the original
before/after selection state) and every other field are identical to the
state right after the original commit. -/
theorem undo_redo_roundtrip (dc : Document) (c : DocumentChange)
    (rest : List DocumentChange) (s0 : Store)
    (hdone : dc.done = c :: rest)
    (ht : dc.isTransacting = false)
    (hm : dc.stageData = dc.data)
    (hv : validOpsB s0 c.ops = true)
    (ha : applyOps s0 c.ops = dc.data) :
    ∃ d1 : Document,
      dc.undo = (d1, HistoryResult.replayed) ∧
      d1.redo = (dc, HistoryResult.replayed) := by
  refine ⟨{ dc.applyChange c.invert with
            done := rest, undone := c.invert :: dc.undone }, ?_, ?_⟩
  · exact undo_cons dc c rest hdone ht
  · have hback : applyOps (applyOps dc.data (invertOps c.ops)) c.ops = dc.data := by
      rw [← ha, applyOps_invertOps c.ops s0 hv]
    have hback2 : applyOps (applyOps dc.stageData (invertOps c.ops)) c.ops = dc.stageData := by
      rw [hm]; exact hback
    refine Eq.trans (redo_cons _ c.invert dc.undone rfl ht) ?_
    rw [change_invert_invert]
    exact congrArg (fun x => (x, HistoryResult.replayed))
      (Document.eq_of_fields hback hback2 rfl rfl rfl rfl hdone.symm rfl)

/-- Claim C2 witness: the roundtrip at the concrete post-commit document
`docAfterCommit`, whose single committed change created `p1`. -/
theorem undo_redo_roundtrip_witness :
    ∃ d1 : Document,
      docAfterCommit.undo = (d1, HistoryResult.replayed) ∧
      d1.redo = (docAfterCommit, HistoryResult.replayed) :=
  undo_redo_roundtrip docAfterCommit c2c [] emptyStore rfl rfl rfl (by decide) rfl

end Substance











